import Mathlib

/-!
Shallow embedding of the two command-line programs of this repository:
the Fibonacci Reporter (`src/chapter-03/fib-number/src/main.rs`) and the
Guessing Game (`src/guess/src/main.rs`), together with proofs of the
specified properties.

Console input is modelled as the line of text handed to the program
(one line for the Fibonacci Reporter, a list of lines for the Guessing
Game's loop); console output is modelled as the list of printed lines,
and process termination as an exit code.  Machine integers (`u32`) are
modelled as `Nat` with explicit reduction modulo `2 ^ 32` where the
source can overflow.
-/

/-- The characters with the Unicode `White_Space` property, which is what
Rust's `str::trim` removes from both ends of a string. -/
def rustIsWhitespace (c : Char) : Bool :=
  c.toNat = 0x09 || c.toNat = 0x0A || c.toNat = 0x0B || c.toNat = 0x0C ||
  c.toNat = 0x0D || c.toNat = 0x20 || c.toNat = 0x85 || c.toNat = 0xA0 ||
  c.toNat = 0x1680 || (0x2000 ≤ c.toNat && c.toNat ≤ 0x200A) ||
  c.toNat = 0x2028 || c.toNat = 0x2029 || c.toNat = 0x202F ||
  c.toNat = 0x205F || c.toNat = 0x3000

/-- An ASCII decimal digit, the only digits `u32::from_str` accepts in
base 10. -/
def isDigitChar (c : Char) : Bool :=
  48 ≤ c.toNat && c.toNat ≤ 57

/-- Remove leading and trailing whitespace from a character list, as
Rust's `str::trim` does on the underlying text. -/
def trimChars (l : List Char) : List Char :=
  (((l.dropWhile rustIsWhitespace).reverse.dropWhile rustIsWhitespace)).reverse

/-- Rust's `str::trim` on a whole string. -/
def rustTrim (s : String) : String :=
  ⟨trimChars s.data⟩

/-- Numeric value of a list of decimal digit characters, accumulated most
significant first, exactly as `u32::from_str` accumulates digit values. -/
def digitsVal (l : List Char) : Nat :=
  l.foldl (fun acc c => acc * 10 + (c.toNat - 48)) 0

/-- The digit-accumulation part of `u32::from_str` after sign handling:
at least one decimal digit, and the value must fit in 32 bits. -/
def parseDigits (digits : List Char) : Option Nat :=
  if digits = [] then none
  else if digits.all isDigitChar then
    if digitsVal digits < 2 ^ 32 then some (digitsVal digits) else none
  else none

/-- Rust's `"...".parse::<u32>()`: an optional leading plus sign followed
by at least one decimal digit, whose value must fit in 32 bits.  A minus
sign is rejected for unsigned integer types, and so is an empty digit
string.  Returns `none` exactly when the Rust parse returns `Err`. -/
def parseU32Chars (l : List Char) : Option Nat :=
  parseDigits (if l.head? = some '+' then l.tail else l)

/-- `parse::<u32>` on a string. -/
def parseU32 (s : String) : Option Nat :=
  parseU32Chars s.data

/-- The ASCII single-quote character used by the Fibonacci Reporter's
error message. -/
def squote : String :=
  String.singleton (Char.ofNat 39)

/-- One iteration of the Fibonacci Reporter's `for` loop:
`(fib_prev, fib) = (fib, fib_prev + fib)` on `u32` values, so the sum is
reduced modulo `2 ^ 32`. -/
def fibStep (p : Nat × Nat) : Nat × Nat :=
  (p.2, (p.1 + p.2) % 2 ^ 32)

/-- The numeric value printed by `show_fib_for`: the requested index
itself when it is below 2, and otherwise the `fib` accumulator after the
loop `for _ in 2..wanted`, which starts from `(fib_prev, fib) = (1, 1)`
and runs `wanted - 2` times. -/
def show_fib_value (wanted : Nat) : Nat :=
  if wanted < 2 then wanted
  else (fibStep^[wanted - 2] (1, 1)).2

/-- The fixed sentence format of the Fibonacci Reporter's success
output. -/
def fibMessage (n v : Nat) : String :=
  "Number " ++ toString n ++ " in the Fibonacci sequence is " ++ toString v ++ "."

/-- The line printed by `show_fib_for(wanted)`. -/
def show_fib_for (wanted : Nat) : String :=
  fibMessage wanted (show_fib_value wanted)

/-- The Fibonacci Reporter's `main` after the input line has been
trimmed: parse, then either report the Fibonacci value (exit status 0)
or echo the input and fail (exit status 1, via `std::process::exit(1)`).
Result: (printed lines, exit code). -/
def fibMainTrimmed (w : String) : List String × Nat :=
  match parseU32 w with
  | some n => ([show_fib_for n], 0)
  | none => (["You entered " ++ squote ++ w ++ squote ++ ". Try again with a number."], 1)

/-- The Fibonacci Reporter's `main` on one line of input: trim, then
parse and dispatch. -/
def fibMain (input : String) : List String × Nat :=
  fibMainTrimmed (rustTrim input)

/-- How one iteration of the Guessing Game's loop ends: fall through to
the next iteration, terminate via `std::process::exit(0)` on a quit
keyword, or `break` out of the loop on a correct guess. -/
inductive StepResult where
  | continueLoop : StepResult
  | exitQuit : StepResult
  | exitWin : StepResult
deriving DecidableEq, Repr

/-- One iteration of the Guessing Game's loop body on one line of input:
trim; quit on "q" or "quit"; silently retry when the parse fails;
otherwise compare the guess to the secret.  Result: (printed lines, how
the iteration ended). -/
def processGuess (secret : Nat) (line : String) : List String × StepResult :=
  let t := rustTrim line
  if t = "q" ∨ t = "quit" then
    (["Thanks for playing!"], StepResult.exitQuit)
  else
    match parseU32 t with
    | none => ([], StepResult.continueLoop)
    | some g =>
      if g < secret then (["Too small!"], StepResult.continueLoop)
      else if g > secret then (["Too big!"], StepResult.continueLoop)
      else ([toString g ++ " is correct: congratulations!"], StepResult.exitWin)

/-- The Guessing Game's loop over a list of input lines.  Quitting exits
the process with code 0; a correct guess breaks the loop and `main`
returns, so the process also exits with code 0.  When the input list is
exhausted the loop is still waiting for input (`none`). -/
def guessLoop (secret : Nat) : List String → List String × Option Nat
  | [] => ([], none)
  | line :: rest =>
    match processGuess secret line with
    | (out, StepResult.continueLoop) =>
      (out ++ (guessLoop secret rest).1, (guessLoop secret rest).2)
    | (out, StepResult.exitQuit) => (out, some 0)
    | (out, StepResult.exitWin) => (out, some 0)

/-- Modelled from the spec: `rand::thread_rng().gen_range(1..=100)` from
the external `rand` crate draws an integer uniformly from the inclusive
range [1, 100].  The generator is external to this repository, so it is
modelled as an arbitrary seed mapped into that range. -/
def gen_range_1_100 (r : Nat) : Nat :=
  1 + r % 100

/-- The persistent state carried from one loop iteration to the next in
the Guessing Game's `main`: only the secret number.  `loopStep` is one
iteration's effect on that state together with the iteration's output;
`secret_number` is an immutable binding in the source, so the state is
passed through unchanged. -/
def loopStep (secret : Nat) (line : String) : Nat × (List String × StepResult) :=
  (secret, processGuess secret line)

/-- The Guessing Game's `main` on a seed and a list of input lines: draw
the secret once, print the banner, then run the loop. -/
def guessMain (r : Nat) (lines : List String) : List String × Option Nat :=
  let secret := gen_range_1_100 r
  ("Guess the number!" :: (guessLoop secret lines).1, (guessLoop secret lines).2)

/-! ### Helper lemmas -/

theorem dropWhile_append_all {p : Char → Bool} :
    ∀ (w l : List Char), (∀ c ∈ w, p c = true) →
      (w ++ l).dropWhile p = l.dropWhile p := by
  intro w
  induction w with
  | nil => intro l _; simp
  | cons a t ih =>
    intro l hw
    have ha : p a = true := hw a (List.mem_cons_self a t)
    simp only [List.cons_append, List.dropWhile_cons, ha, if_true]
    exact ih l (fun c hc => hw c (List.mem_cons_of_mem a hc))

theorem dropWhile_all_nil {p : Char → Bool} (w : List Char)
    (hw : ∀ c ∈ w, p c = true) : w.dropWhile p = [] := by
  have := dropWhile_append_all w [] hw
  simpa using this

theorem dropWhile_append_of_ne_nil {p : Char → Bool} :
    ∀ (l w : List Char), l.dropWhile p ≠ [] →
      (l ++ w).dropWhile p = l.dropWhile p ++ w := by
  intro l
  induction l with
  | nil => intro w h; simp at h
  | cons a t ih =>
    intro w h
    by_cases ha : p a = true
    · simp only [List.dropWhile_cons, ha, if_true] at h ⊢
      simp only [List.cons_append, List.dropWhile_cons, ha, if_true]
      exact ih w h
    · have ha' : p a = false := by
        cases hpa : p a
        · rfl
        · exact absurd hpa ha
      simp only [List.cons_append, List.dropWhile_cons, ha', Bool.false_eq_true,
        if_false]

theorem dropWhile_of_all_neg {p : Char → Bool} (l : List Char)
    (h : ∀ c ∈ l, p c = false) : l.dropWhile p = l := by
  cases l with
  | nil => rfl
  | cons a t =>
    have ha : p a = false := h a (List.mem_cons_self a t)
    simp [List.dropWhile_cons, ha]

theorem trimChars_of_no_ws (l : List Char)
    (h : ∀ c ∈ l, rustIsWhitespace c = false) : trimChars l = l := by
  unfold trimChars
  rw [dropWhile_of_all_neg l h]
  rw [dropWhile_of_all_neg l.reverse (fun c hc => h c (List.mem_reverse.mp hc))]
  exact List.reverse_reverse l

theorem trimChars_pad (w1 w2 d : List Char)
    (h1 : ∀ c ∈ w1, rustIsWhitespace c = true)
    (h2 : ∀ c ∈ w2, rustIsWhitespace c = true) :
    trimChars (w1 ++ d ++ w2) = trimChars d := by
  unfold trimChars
  rw [List.append_assoc, dropWhile_append_all w1 (d ++ w2) h1]
  by_cases hd : d.dropWhile rustIsWhitespace = []
  · have hall : ∀ c ∈ d, rustIsWhitespace c = true :=
      List.dropWhile_eq_nil_iff.mp hd
    have hdw : (d ++ w2).dropWhile rustIsWhitespace = [] := by
      rw [dropWhile_append_all d w2 hall]
      exact dropWhile_all_nil w2 h2
    rw [hdw, hd]
  · rw [dropWhile_append_of_ne_nil d w2 hd]
    rw [List.reverse_append]
    rw [dropWhile_append_all w2.reverse (d.dropWhile rustIsWhitespace).reverse
      (fun c hc => h2 c (List.mem_reverse.mp hc))]

theorem rustTrim_data (s : String) : (rustTrim s).data = trimChars s.data :=
  rfl

theorem parseU32_q_none : parseU32 "q" = none := by decide

theorem parseU32_quit_none : parseU32 "quit" = none := by decide

theorem parse_ne_quit {s : String} {g : Nat} (h : parseU32 s = some g) :
    ¬(s = "q" ∨ s = "quit") := by
  rintro (h1 | h1)
  · rw [h1, parseU32_q_none] at h
    exact Option.noConfusion h
  · rw [h1, parseU32_quit_none] at h
    exact Option.noConfusion h

theorem processGuess_parsed (secret g : Nat) (line : String)
    (h : parseU32 (rustTrim line) = some g) :
    processGuess secret line =
      if g < secret then (["Too small!"], StepResult.continueLoop)
      else if g > secret then (["Too big!"], StepResult.continueLoop)
      else ([toString g ++ " is correct: congratulations!"], StepResult.exitWin) := by
  unfold processGuess
  rw [if_neg (parse_ne_quit h), h]

theorem show_fib_value_eq_fib : ∀ n ≤ 47, show_fib_value n = Nat.fib n := by
  decide

theorem string_data_append (a b : String) : (a ++ b).data = a.data ++ b.data := by
  cases a
  cases b
  rfl

theorem digit_not_ws {c : Char} (h : isDigitChar c = true) :
    rustIsWhitespace c = false := by
  simp only [isDigitChar, Bool.and_eq_true, decide_eq_true_eq] at h
  simp only [rustIsWhitespace, Bool.or_eq_false_iff, Bool.and_eq_false_iff,
    decide_eq_false_iff_not]
  omega

theorem plus_not_ws : rustIsWhitespace (Char.ofNat 43) = false := by
  decide

theorem guessLoop_exit_zero (secret : Nat) :
    ∀ (lines : List String) (c : Nat), (guessLoop secret lines).2 = some c → c = 0 := by
  intro lines
  induction lines with
  | nil =>
    intro c h
    exact Option.noConfusion h
  | cons line rest ih =>
    intro c h
    unfold guessLoop at h
    rcases hpg : processGuess secret line with ⟨out, sr⟩
    rw [hpg] at h
    cases sr
    · exact ih c h
    · exact (Option.some_inj.mp h).symm
    · exact (Option.some_inj.mp h).symm

theorem loopStep_foldl (secret : Nat) :
    ∀ lines : List String,
      lines.foldl (fun s line => (loopStep s line).1) secret = secret := by
  intro lines
  induction lines with
  | nil => rfl
  | cons line rest ih => exact ih

theorem rustTrim_eq_self {s : String}
    (h : ∀ c ∈ s.data, rustIsWhitespace c = false) : rustTrim s = s := by
  unfold rustTrim
  rw [trimChars_of_no_ws s.data h]

theorem parseDigits_some (l : List Char) (hne : l ≠ [])
    (hdig : ∀ c ∈ l, isDigitChar c = true) (hfit : digitsVal l < 2 ^ 32) :
    parseDigits l = some (digitsVal l) := by
  unfold parseDigits
  rw [if_neg hne, if_pos (show l.all isDigitChar = true from List.all_eq_true.mpr hdig),
    if_pos hfit]

theorem parseU32Chars_plus (l : List Char) (hne : l ≠ [])
    (hdig : ∀ c ∈ l, isDigitChar c = true) (hfit : digitsVal l < 2 ^ 32) :
    parseU32Chars ('+' :: l) = some (digitsVal l) := by
  unfold parseU32Chars
  rw [if_pos (show ('+' :: l).head? = some '+' from rfl)]
  exact parseDigits_some l hne hdig hfit

theorem parseU32Chars_noplus (l : List Char) (hne : l ≠ [])
    (hdig : ∀ c ∈ l, isDigitChar c = true) (hfit : digitsVal l < 2 ^ 32) :
    parseU32Chars l = some (digitsVal l) := by
  unfold parseU32Chars
  have hhead : ¬(l.head? = some '+') := by
    rcases l with _ | ⟨c, t⟩
    · simp
    · simp only [List.head?_cons, Option.some_inj]
      intro hc
      have hd := hdig c (List.mem_cons_self c t)
      rw [hc] at hd
      exact absurd hd (by decide)
  rw [if_neg hhead]
  exact parseDigits_some l hne hdig hfit

/-! ### The claims -/

/-- C1: for every requested index `n` that parses successfully with
`n ≤ 47` (so that no `u32` overflow occurs), the Fibonacci Reporter
prints the value `F(n)` of the canonical sequence `F(0) = 0`, `F(1) = 1`,
`F(n) = F(n-1) + F(n-2)`, and exits with status 0. -/
theorem fib_reporter_prints_canonical (input : String) (n : Nat)
    (hp : parseU32 (rustTrim input) = some n) (hn : n ≤ 47) :
    fibMain input = ([fibMessage n (Nat.fib n)], 0) := by
  unfold fibMain fibMainTrimmed
  rw [hp]
  show ([show_fib_for n], 0) = ([fibMessage n (Nat.fib n)], 0)
  unfold show_fib_for
  rw [show_fib_value_eq_fib n hn]

/-- Witness for C1 at the concrete index 10: the parse succeeds, the
bound holds, and the reporter prints `F(10) = 55`. -/
theorem fib_reporter_prints_canonical_w :
    parseU32 (rustTrim "10") = some 10 ∧ (10 : Nat) ≤ 47 ∧
      fibMain "10" = ([fibMessage 10 55], 0) := by
  refine ⟨by decide, by decide, ?_⟩
  have h := fib_reporter_prints_canonical "10" 10 (by decide) (by decide)
  rw [h]
  norm_num [Nat.fib]

/-- C2: for every guess that parses as a non-negative integer and every
secret: a smaller guess prints exactly "Too small!" and the loop
continues, a larger guess prints exactly "Too big!" and the loop
continues, and an equal guess prints a success message containing the
guessed value and the loop exits with success status; exactly one
message is printed per parsed guess. -/
theorem guess_compare_trichotomy (secret g : Nat) (line : String)
    (h : parseU32 (rustTrim line) = some g) :
    (g < secret → processGuess secret line = (["Too small!"], StepResult.continueLoop)) ∧
    (g > secret → processGuess secret line = (["Too big!"], StepResult.continueLoop)) ∧
    (g = secret →
      processGuess secret line =
        ([toString g ++ " is correct: congratulations!"], StepResult.exitWin) ∧
      ∀ rest, guessLoop secret (line :: rest) =
        ([toString g ++ " is correct: congratulations!"], some 0)) ∧
    (processGuess secret line).1.length = 1 := by
  have hpg := processGuess_parsed secret g line h
  refine ⟨?_, ?_, ?_, ?_⟩
  · intro hlt
    rw [hpg, if_pos hlt]
  · intro hgt
    rw [hpg, if_neg (by omega), if_pos hgt]
  · intro heq
    have hwin : processGuess secret line =
        ([toString g ++ " is correct: congratulations!"], StepResult.exitWin) := by
      rw [hpg, if_neg (by omega), if_neg (by omega)]
    refine ⟨hwin, fun rest => ?_⟩
    unfold guessLoop
    rw [hwin]
  · rw [hpg]
    by_cases h1 : g < secret
    · rw [if_pos h1]
      rfl
    · by_cases h2 : g > secret
      · rw [if_neg h1, if_pos h2]
        rfl
      · rw [if_neg h1, if_neg h2]
        rfl

/-- Witness for C2 with secret 10: guess 3 prints "Too small!", guess 20
prints "Too big!", and guess 10 wins with a message containing the
value. -/
theorem guess_compare_trichotomy_w :
    processGuess 10 "3" = (["Too small!"], StepResult.continueLoop) ∧
    processGuess 10 "20" = (["Too big!"], StepResult.continueLoop) ∧
    processGuess 10 "10" =
      ([toString 10 ++ " is correct: congratulations!"], StepResult.exitWin) := by
  refine ⟨?_, ?_, ?_⟩
  · exact (guess_compare_trichotomy 10 3 "3" (by decide)).1 (by omega)
  · exact (guess_compare_trichotomy 10 20 "20" (by decide)).2.1 (by omega)
  · exact ((guess_compare_trichotomy 10 10 "10" (by decide)).2.2.1 rfl).1

/-- C3: an input line whose trimmed text is exactly "q" or exactly
"quit" makes the Guessing Game print "Thanks for playing!" and terminate
immediately with exit code 0, with no Too-small/Too-big message and for
every secret alike (no comparison against the secret). -/
theorem quit_immediate_exit (secret : Nat) (line : String)
    (h : rustTrim line = "q" ∨ rustTrim line = "quit") :
    processGuess secret line = (["Thanks for playing!"], StepResult.exitQuit) ∧
    ∀ rest, guessLoop secret (line :: rest) = (["Thanks for playing!"], some 0) := by
  have hq : processGuess secret line = (["Thanks for playing!"], StepResult.exitQuit) := by
    unfold processGuess
    rw [if_pos h]
  refine ⟨hq, fun rest => ?_⟩
  unfold guessLoop
  rw [hq]

/-- Witness for C3: the line "quit", with prior guesses pending after
it, quits at once with exit code 0. -/
theorem quit_immediate_exit_w :
    processGuess 42 "quit" = (["Thanks for playing!"], StepResult.exitQuit) ∧
    guessLoop 42 ["quit", "3"] = (["Thanks for playing!"], some 0) := by
  have h := quit_immediate_exit 42 "quit" (Or.inr (by decide))
  exact ⟨h.1, h.2 ["3"]⟩

/-- C4: an input line whose trimmed text does not parse as a
non-negative integer makes the Fibonacci Reporter print exactly one
message echoing the trimmed input in single quotes and terminate with
exit status 1. -/
theorem fib_parse_failure_fatal (input : String)
    (h : parseU32 (rustTrim input) = none) :
    fibMain input =
      (["You entered " ++ squote ++ rustTrim input ++ squote ++
        ". Try again with a number."], 1) := by
  unfold fibMain fibMainTrimmed
  rw [h]

/-- Witness for C4: input "abc" fails to parse, prints a message
containing the literal text "abc", and exits with status 1. -/
theorem fib_parse_failure_fatal_w :
    parseU32 (rustTrim "abc") = none ∧
    fibMain "abc" =
      (["You entered " ++ squote ++ "abc" ++ squote ++
        ". Try again with a number."], 1) := by
  have h := fib_parse_failure_fatal "abc" (by decide)
  rw [show rustTrim "abc" = "abc" from by decide] at h
  exact ⟨by decide, h⟩

/-- C5: an input line whose trimmed text is neither a quit keyword nor a
parseable non-negative integer produces no output in the Guessing Game,
and the loop on the remaining lines is unchanged: the secret and all
other state are the same as if the line had never been read. -/
theorem invalid_guess_silent (secret : Nat) (line : String)
    (hq : ¬(rustTrim line = "q" ∨ rustTrim line = "quit"))
    (hp : parseU32 (rustTrim line) = none) :
    processGuess secret line = ([], StepResult.continueLoop) ∧
    ∀ rest, guessLoop secret (line :: rest) = guessLoop secret rest := by
  have hstep : processGuess secret line = ([], StepResult.continueLoop) := by
    unfold processGuess
    rw [if_neg hq, hp]
  refine ⟨hstep, fun rest => ?_⟩
  conv_lhs => rw [guessLoop, hstep]
  simp

/-- Witness for C5: the line "banana" is silently discarded and the loop
state is exactly what it was. -/
theorem invalid_guess_silent_w :
    processGuess 42 "banana" = ([], StepResult.continueLoop) ∧
    guessLoop 42 ["banana", "42"] = guessLoop 42 ["42"] := by
  have h := invalid_guess_silent 42 "banana" (by decide) (by decide)
  exact ⟨h.1, h.2 ["42"]⟩

/-- C6: the Guessing Game has no non-zero exit path: whenever a run over
any input lines terminates with some exit code, that code is 0, whether
the run ended by correct guess or by quit keyword. -/
theorem guess_no_nonzero_exit (r : Nat) (lines : List String) (c : Nat)
    (h : (guessMain r lines).2 = some c) : c = 0 := by
  have h' : (guessLoop (gen_range_1_100 r) lines).2 = some c := h
  exact guessLoop_exit_zero (gen_range_1_100 r) lines c h'

/-- Witness for C6: a run that quits immediately exits with code 0. -/
theorem guess_no_nonzero_exit_w :
    (guessMain 0 ["q"]).2 = some 0 ∧ (0 : Nat) = 0 :=
  ⟨by decide, guess_no_nonzero_exit 0 ["q"] 0 (by decide)⟩

/-- C7: the Fibonacci Reporter trims leading and trailing whitespace
before parsing, so any input surrounded by extra whitespace behaves
identically to the bare input. -/
theorem fib_trim_pad (ws1 ws2 d : String)
    (h1 : ∀ c ∈ ws1.data, rustIsWhitespace c = true)
    (h2 : ∀ c ∈ ws2.data, rustIsWhitespace c = true) :
    fibMain (ws1 ++ d ++ ws2) = fibMain d := by
  unfold fibMain
  have ht : rustTrim (ws1 ++ d ++ ws2) = rustTrim d := by
    unfold rustTrim
    have hdata : (ws1 ++ d ++ ws2).data = ws1.data ++ d.data ++ ws2.data := by
      rw [string_data_append, string_data_append]
    rw [hdata, trimChars_pad ws1.data ws2.data d.data h1 h2]
  rw [ht]

/-- Witness for C7: input " 7 " behaves identically to input "7". -/
theorem fib_trim_pad_w :
    (∀ c ∈ (" " : String).data, rustIsWhitespace c = true) ∧
    fibMain (" " ++ "7" ++ " ") = fibMain "7" :=
  ⟨by decide, fib_trim_pad " " " " "7" (by decide) (by decide)⟩

/-- C8: the secret number is drawn exactly once, at program start, from
the inclusive range [1, 100]; `guessMain` uses that single draw for the
whole loop, and no loop step modifies it: folding the per-iteration
state update over any input lines leaves the secret unchanged. -/
theorem secret_once_in_range_constant (r : Nat) (lines : List String) :
    (1 ≤ gen_range_1_100 r ∧ gen_range_1_100 r ≤ 100) ∧
    guessMain r lines =
      ("Guess the number!" :: (guessLoop (gen_range_1_100 r) lines).1,
        (guessLoop (gen_range_1_100 r) lines).2) ∧
    lines.foldl (fun s line => (loopStep s line).1) (gen_range_1_100 r) =
      gen_range_1_100 r ∧
    ∀ line, (loopStep (gen_range_1_100 r) line).1 = gen_range_1_100 r := by
  refine ⟨⟨?_, ?_⟩, rfl, loopStep_foldl (gen_range_1_100 r) lines, fun line => rfl⟩
  · simp only [gen_range_1_100]
    omega
  · simp only [gen_range_1_100]
    omega

/-- C9: because the secret is always in [1, 100], a parsed guess of 0
always prints "Too small!", a parsed guess of at least 101 always prints
"Too big!", and the winning branch is reachable only for a guess in
[1, 100]. -/
theorem secret_range_consequences (r g : Nat) (line : String)
    (hp : parseU32 (rustTrim line) = some g) :
    (g = 0 →
      processGuess (gen_range_1_100 r) line = (["Too small!"], StepResult.continueLoop)) ∧
    (101 ≤ g →
      processGuess (gen_range_1_100 r) line = (["Too big!"], StepResult.continueLoop)) ∧
    ((processGuess (gen_range_1_100 r) line).2 = StepResult.exitWin →
      1 ≤ g ∧ g ≤ 100) := by
  have hs1 : 1 ≤ gen_range_1_100 r := by
    simp only [gen_range_1_100]
    omega
  have hs2 : gen_range_1_100 r ≤ 100 := by
    simp only [gen_range_1_100]
    omega
  have hpg := processGuess_parsed (gen_range_1_100 r) g line hp
  refine ⟨?_, ?_, ?_⟩
  · intro h0
    rw [hpg, if_pos (by omega)]
  · intro h101
    rw [hpg, if_neg (by omega), if_pos (by omega)]
  · intro hwin
    rw [hpg] at hwin
    by_cases hlt : g < gen_range_1_100 r
    · rw [if_pos hlt] at hwin
      exact absurd hwin (by decide)
    · by_cases hgt : g > gen_range_1_100 r
      · rw [if_neg hlt, if_pos hgt] at hwin
        exact absurd hwin (by decide)
      · omega

/-- Witness for C9: with seed 0 the secret is in range and the guess 0
prints "Too small!". -/
theorem secret_range_consequences_w :
    parseU32 (rustTrim "0") = some 0 ∧
    processGuess (gen_range_1_100 0) "0" = (["Too small!"], StepResult.continueLoop) :=
  ⟨by decide, (secret_range_consequences 0 0 "0" (by decide)).1 rfl⟩

/-- C10: a trimmed input line consisting of a leading plus sign followed
by decimal digits whose value fits in 32 bits parses successfully in
both programs: the Fibonacci Reporter does not take its fatal
parse-failure branch (exit status 0), and the Guessing Game behaves on
it exactly as on the bare digit string, comparing the value against the
secret rather than discarding the line. -/
theorem plus_prefix_accepted (ds : String) (n : Nat)
    (hne : ds.data ≠ [])
    (hdig : ∀ c ∈ ds.data, isDigitChar c = true)
    (hval : digitsVal ds.data = n)
    (hfit : n < 2 ^ 32) :
    parseU32 (rustTrim ("+" ++ ds)) = some n ∧
    parseU32 (rustTrim ds) = some n ∧
    (fibMain ("+" ++ ds)).2 = 0 ∧
    ∀ secret, processGuess secret ("+" ++ ds) = processGuess secret ds := by
  subst hval
  have hplusdata : ("+" ++ ds).data = '+' :: ds.data := by
    rw [string_data_append]
    rfl
  have hnws_ds : ∀ c ∈ ds.data, rustIsWhitespace c = false :=
    fun c hc => digit_not_ws (hdig c hc)
  have hnws_plus : ∀ c ∈ ("+" ++ ds).data, rustIsWhitespace c = false := by
    rw [hplusdata]
    intro c hc
    rcases List.mem_cons.mp hc with hc | hc
    · rw [hc]
      decide
    · exact hnws_ds c hc
  have htrim_plus : rustTrim ("+" ++ ds) = "+" ++ ds := rustTrim_eq_self hnws_plus
  have htrim_ds : rustTrim ds = ds := rustTrim_eq_self hnws_ds
  have hp1 : parseU32 ("+" ++ ds) = some (digitsVal ds.data) := by
    unfold parseU32
    rw [hplusdata]
    exact parseU32Chars_plus ds.data hne hdig hfit
  have hp2 : parseU32 ds = some (digitsVal ds.data) := by
    unfold parseU32
    exact parseU32Chars_noplus ds.data hne hdig hfit
  refine ⟨by rw [htrim_plus]; exact hp1, by rw [htrim_ds]; exact hp2, ?_, ?_⟩
  · unfold fibMain fibMainTrimmed
    rw [htrim_plus, hp1]
  · intro secret
    rw [processGuess_parsed secret (digitsVal ds.data) ("+" ++ ds)
        (by rw [htrim_plus]; exact hp1),
      processGuess_parsed secret (digitsVal ds.data) ds
        (by rw [htrim_ds]; exact hp2)]

/-- Witness for C10: the input "+7" parses as 7 in both programs; the
Fibonacci Reporter succeeds on it and the Guessing Game treats it like
"7". -/
theorem plus_prefix_accepted_w :
    parseU32 (rustTrim ("+" ++ "7")) = some 7 ∧
    (fibMain ("+" ++ "7")).2 = 0 ∧
    processGuess 5 ("+" ++ "7") = processGuess 5 "7" := by
  have h := plus_prefix_accepted "7" 7 (by decide) (by decide) (by decide) (by decide)
  exact ⟨h.1, h.2.2.1, h.2.2.2 5⟩
